import Mathlib

/-!
Verification of the credential-pool (API key rotation) and ingestion logic of
the YouTube-Recent-Media server.

The definitions below are a shallow embedding of
`src/server/src/services/apiKeyManager.js`,
`src/server/src/services/youtubeService.js` and the upsert semantics implied by
`src/server/src/models/Video.js` (unique index on `videoId`).

Modelling conventions:
* `Date.now()` is passed explicitly as a `now : Nat` (milliseconds).
* The mutable singleton `keyManager` becomes explicit state passing of an
  `APIKeyManager` value.
* JS `throw` becomes `Except`; the recursive retry in
  `fetchVideosFromYouTube` is given explicit fuel (the JS recursion has no
  bound of its own; running out of fuel is reported by a dedicated error so
  that depth bounds are observable statements).
* The external HTTP call is an oracle `String → String → Option String → Resp`
  (key, query, pageToken ↦ provider response); the database driver's
  failure behaviour is an oracle `VideoData → Option SvcErr`.
-/

/-- One entry of `this.keys` in `APIKeyManager`:
`{ key, quotaExhausted, lastUsed }`. -/
structure KeyEntry where
  key : String
  quotaExhausted : Bool
  lastUsed : Nat
deriving Repr, DecidableEq

instance : Inhabited KeyEntry := ⟨⟨"", false, 0⟩⟩

/-- The state of the `APIKeyManager` class: `this.keys` and
`this.currentKeyIndex`. -/
structure APIKeyManager where
  keys : List KeyEntry
  currentKeyIndex : Nat
deriving Repr, DecidableEq

/-- `24 * 60 * 60 * 1000` from `resetExhaustedKeys`. -/
def twentyFourHours : Nat := 24 * 60 * 60 * 1000

/-- `resetExhaustedKeys`: clear `quotaExhausted` on every key whose
`Date.now() - key.lastUsed >= twentyFourHours`.  (In JS the difference can be
negative, which fails the `>=` test; truncated `Nat` subtraction gives `0`,
which also fails it, since `twentyFourHours > 0`.) -/
def resetExhaustedKeys (now : Nat) (ks : List KeyEntry) : List KeyEntry :=
  ks.map fun k =>
    if now - k.lastUsed ≥ twentyFourHours then { k with quotaExhausted := false } else k

/-- `this.keys[i].quotaExhausted` (out-of-range reads default, used only
under in-range hypotheses). -/
def exhAt (ks : List KeyEntry) (i : Nat) : Bool :=
  (ks.getD i default).quotaExhausted

/-- The body of the `do … while` loop of `rotateToNextKey`.  Each iteration
advances the cursor by one modulo `keys.length`, runs `resetExhaustedKeys`
when the cursor has come back to `startIndex`, and continues while the key
under the cursor is exhausted and the cursor is not back at `startIndex`.
The loop advances the cursor once per iteration, so it returns to
`startIndex` (and therefore exits) after at most `keys.length` iterations;
fuel `keys.length` is exact, the `0` branch is unreachable from
`rotateToNextKey`. -/
def rotLoop (now start : Nat) : Nat → List KeyEntry → Nat → List KeyEntry × Nat
  | 0, ks, cursor => (ks, cursor)
  | fuel + 1, ks, cursor =>
    let c := (cursor + 1) % ks.length
    let ks' := if c = start then resetExhaustedKeys now ks else ks
    if exhAt ks' c = true ∧ c ≠ start then rotLoop now start fuel ks' c else (ks', c)

/-- `rotateToNextKey`. -/
def rotateToNextKey (now : Nat) (s : APIKeyManager) : APIKeyManager :=
  let r := rotLoop now s.currentKeyIndex s.keys.length s.keys s.currentKeyIndex
  { keys := r.1, currentKeyIndex := r.2 }

/-- `markKeyAsExhausted`: set `quotaExhausted = true` and `lastUsed = now` on
the key under the cursor, then rotate. -/
def markKeyAsExhausted (now : Nat) (s : APIKeyManager) : APIKeyManager :=
  let marked := s.keys.set s.currentKeyIndex
    { s.keys.getD s.currentKeyIndex default with quotaExhausted := true, lastUsed := now }
  rotateToNextKey now { keys := marked, currentKeyIndex := s.currentKeyIndex }

/-- `hasAvailableKeys`: `this.keys.some(key => !key.quotaExhausted)`. -/
def hasAvailableKeys (s : APIKeyManager) : Bool :=
  s.keys.any fun k => !k.quotaExhausted

/-- The error thrown by `getCurrentKey` (`'No available API keys'`). -/
inductive KeyErr where
  | noAvailableKeys
deriving Repr, DecidableEq

/-- `getCurrentKey`: throws when `hasAvailableKeys()` is false, otherwise
returns `this.keys[this.currentKeyIndex].key`. -/
def getCurrentKey (s : APIKeyManager) : Except KeyErr String :=
  if hasAvailableKeys s then .ok (s.keys.getD s.currentKeyIndex default).key
  else .error .noAvailableKeys

/-- The two constructor failures (`'No YouTube API keys provided…'` and
`'No valid API keys found after processing.'`). -/
inductive ConfigErr where
  | noKeysProvided
  | noValidKeys
deriving Repr, DecidableEq

/-- JS `String.prototype.split(',')` on the character list: splits at every
comma, keeping empty groups (`''.split(',') === ['']`). -/
def splitOnComma : List Char → List (List Char)
  | [] => [[]]
  | c :: rest =>
    if c = ',' then [] :: splitOnComma rest
    else
      match splitOnComma rest with
      | g :: gs => (c :: g) :: gs
      | [] => [[c]]

/-- JS `String.prototype.trim()` on the character list: drop leading and
trailing whitespace. -/
def trimChars (l : List Char) : List Char :=
  ((l.dropWhile Char.isWhitespace).reverse.dropWhile Char.isWhitespace).reverse

/-- `keys.split(',').map(key => key.trim()).filter(key => key !== '')`. -/
def parseKeys (s : String) : List String :=
  (((splitOnComma s.data).map fun g => String.mk (trimChars g)).filter fun k => k ≠ "")

/-- The `APIKeyManager` constructor.  `none` models a missing
`YOUTUBE_API_KEYS` variable (`!keys || typeof keys !== 'string'`); an empty
trimmed string fails the same first check (`keys.trim() === ''`, and `!keys`
for `""`). -/
def constructKM : Option String → Except ConfigErr APIKeyManager
  | none => .error .noKeysProvided
  | some raw =>
    if String.mk (trimChars raw.data) = "" then .error .noKeysProvided
    else
      let keyArray := parseKeys raw
      if keyArray = [] then .error .noValidKeys
      else .ok
        { keys := keyArray.map fun k => { key := k, quotaExhausted := false, lastUsed := 0 }
          currentKeyIndex := 0 }

/-- Pool states reachable from construction by the mutating operations
(`markKeyAsExhausted`, `rotateToNextKey`); `getCurrentKey` and
`hasAvailableKeys` do not mutate. -/
inductive Reachable : APIKeyManager → Prop
  | constructed (cfg : Option String) (s : APIKeyManager) :
      constructKM cfg = .ok s → Reachable s
  | mark (now : Nat) (s : APIKeyManager) :
      Reachable s → Reachable (markKeyAsExhausted now s)
  | rotate (now : Nat) (s : APIKeyManager) :
      Reachable s → Reachable (rotateToNextKey now s)

/-- Well-formedness: a nonempty key list and an in-range cursor (holds at
construction and is preserved by every operation). -/
def WF (s : APIKeyManager) : Prop :=
  s.keys ≠ [] ∧ s.currentKeyIndex < s.keys.length

/-- The key entry that `markKeyAsExhausted` writes at the cursor. -/
def markedEntry (now : Nat) (s : APIKeyManager) : KeyEntry :=
  { s.keys.getD s.currentKeyIndex default with quotaExhausted := true, lastUsed := now }

/-- The key list after the stamp and before the rotation inside
`markKeyAsExhausted`. -/
def stampedKeys (now : Nat) (s : APIKeyManager) : List KeyEntry :=
  s.keys.set s.currentKeyIndex (markedEntry now s)

/-- Number of exhausted keys. -/
def exhCount (ks : List KeyEntry) : Nat :=
  List.countP (fun k => k.quotaExhausted) ks

/-- Number of available (non-exhausted) keys. -/
def availCount (ks : List KeyEntry) : Nat :=
  List.countP (fun k => !k.quotaExhausted) ks

/-- No exhausted key is stale at instant `now`: every exhausted key was
stamped less than 24 hours ago, so a reset sweep at `now` clears nothing. -/
def NoStaleExhausted (now : Nat) (ks : List KeyEntry) : Prop :=
  ∀ k ∈ ks, k.quotaExhausted = true → now - k.lastUsed < twentyFourHours

/-- `item.snippet` of a YouTube search result. -/
structure Snippet where
  title : String
  description : String
  publishedAt : String
  thumbnails : String
  channelTitle : String
  channelId : String
deriving Repr, DecidableEq

/-- One element of `response.data.items`; `id` stands for `item.id.videoId`. -/
structure YTItem where
  id : String
  snippet : Snippet
deriving Repr, DecidableEq

/-- The result page of the search endpoint (`response.data`); only `items`
matters to the orchestrator. -/
structure Page where
  items : List YTItem
deriving Repr, DecidableEq

/-- The `videoData` record built in `saveVideosToDatabase`.  `new Date(…)` is
modelled as the identity on the timestamp string (date parsing is not
load-bearing for any claim). -/
structure VideoData where
  videoId : String
  title : String
  description : String
  publishedAt : String
  thumbnails : String
  channelTitle : String
  channelId : String
deriving Repr, DecidableEq

/-- The `videoData` mapping in `saveVideosToDatabase`. -/
def toVideoData (item : YTItem) : VideoData :=
  { videoId := item.id
    title := item.snippet.title
    description := item.snippet.description
    publishedAt := item.snippet.publishedAt
    thumbnails := item.snippet.thumbnails
    channelTitle := item.snippet.channelTitle
    channelId := item.snippet.channelId }

/-- A provider response: either a result page or an error carrying an
optional HTTP status (`error.response?.status`; `none` models a transport
error with no response). -/
inductive Resp where
  | ok (page : Page)
  | err (status : Option Nat)
deriving Repr, DecidableEq

/-- The failures observable from the service layer.
`allExhausted` is the explicit throw `'All API keys are exhausted…'`;
`noAvailableKeys` is `getCurrentKey`'s throw (unreachable after the
availability check); `upstream` is a rethrown axios error with its status;
`outOfFuel` marks exhaustion of the fuel given to the retry recursion (no
JS counterpart — it makes recursion depth observable); `db` is a storage
failure surfaced by the database driver. -/
inductive SvcErr where
  | allExhausted
  | noAvailableKeys
  | upstream (status : Option Nat)
  | outOfFuel
  | db (msg : String)
deriving Repr, DecidableEq

/-- `fetchVideosFromYouTube` with explicit fuel bounding the retry
recursion.  `oracle key query pageToken` is the provider's response to one
request authenticated with `key`.  Mirrors the JS: check availability, read
the current key, issue the request; on a 403 mark the key exhausted and, if
keys remain, recurse with the same arguments; otherwise rethrow; non-403
errors are rethrown without marking. -/
def fetchVideosFromYouTube (oracle : String → String → Option String → Resp)
    (now : Nat) (query : String) (pageToken : Option String) :
    Nat → APIKeyManager → Except SvcErr Page × APIKeyManager
  | 0, s => (.error .outOfFuel, s)
  | fuel + 1, s =>
    if hasAvailableKeys s = false then (.error .allExhausted, s)
    else
      match getCurrentKey s with
      | .error _ => (.error .noAvailableKeys, s)
      | .ok currentKey =>
        match oracle currentKey query pageToken with
        | .ok page => (.ok page, s)
        | .err status =>
          if status = some 403 then
            let s' := markKeyAsExhausted now s
            if hasAvailableKeys s' then
              fetchVideosFromYouTube oracle now query pageToken fuel s'
            else (.error (.upstream status), s')
          else (.error (.upstream status), s)

/-- `Video.findOneAndUpdate({ videoId }, videoData, { upsert: true })` on a
store with a unique index on `videoId`: replace the (single) record with the
same `videoId`, or append the record if none exists. -/
def upsertByVideoId : List VideoData → VideoData → List VideoData
  | [], d => [d]
  | r :: rs, d => if r.videoId == d.videoId then d :: rs else r :: upsertByVideoId rs d

/-- `saveVideosToDatabase`: map each item to `videoData`, upsert it, collect
the saved records in order; a driver failure (`dbFail`) aborts the loop and
rethrows, leaving earlier upserts committed.  Returns the JS return value
(or thrown error) together with the final store contents. -/
def saveVideosToDatabase (dbFail : VideoData → Option SvcErr) :
    List VideoData → List YTItem → Except SvcErr (List VideoData) × List VideoData
  | db, [] => (.ok [], db)
  | db, item :: rest =>
    let d := toVideoData item
    match dbFail d with
    | some e => (.error e, db)
    | none =>
      match saveVideosToDatabase dbFail (upsertByVideoId db d) rest with
      | (.ok vs, dbf) => (.ok (d :: vs), dbf)
      | (.error e, dbf) => (.error e, dbf)

/-- `fetchAndSaveVideos`: one fetch-and-persist cycle.  Fetches page one
(no page token), saves the items when there are any, otherwise returns `[]`;
its `catch` block rethrows every error unchanged. -/
def fetchAndSaveVideos (oracle : String → String → Option String → Resp)
    (dbFail : VideoData → Option SvcErr) (now : Nat) (query : String)
    (fuel : Nat) (s : APIKeyManager) (db : List VideoData) :
    Except SvcErr (List VideoData) × APIKeyManager × List VideoData :=
  match fetchVideosFromYouTube oracle now query none fuel s with
  | (.error e, s') => (.error e, s', db)
  | (.ok page, s') =>
    if 0 < page.items.length then
      match saveVideosToDatabase dbFail db page.items with
      | (.ok vs, db') => (.ok vs, s', db')
      | (.error e, db') => (.error e, s', db')
    else (.ok [], s', db)

/-- `db.countP (record has this videoId)`: number of stored records carrying
one external video id. -/
def countId (db : List VideoData) (id : String) : Nat :=
  List.countP (fun r => r.videoId == id) db

/-- Repeated `markKeyAsExhausted` at the given sequence of times. -/
def marksAt (ts : List Nat) (s : APIKeyManager) : APIKeyManager :=
  ts.foldl (fun s t => markKeyAsExhausted t s) s

/-- The cumulative effect on the store of upserting every item of the list
in order (what the save loop does when no write fails). -/
def applyWrites (items : List YTItem) (db : List VideoData) : List VideoData :=
  items.foldl (fun db i => upsertByVideoId db (toVideoData i)) db

/-- Two concrete items used by witnesses. -/
def item1 : YTItem := ⟨"v1", ⟨"t1", "d1", "p1", "th1", "c1", "ci1"⟩⟩

/-- A second concrete item used by witnesses. -/
def item2 : YTItem := ⟨"v2", ⟨"t2", "d2", "p2", "th2", "c2", "ci2"⟩⟩

/-- A concrete one-key pool (what `constructKM (some "a")` yields). -/
def poolA : APIKeyManager := { keys := [⟨"a", false, 0⟩], currentKeyIndex := 0 }

/-- A concrete two-key pool (what `constructKM (some "a,b")` yields). -/
def poolAB : APIKeyManager := { keys := [⟨"a", false, 0⟩, ⟨"b", false, 0⟩], currentKeyIndex := 0 }

-- sanity checks on the concrete pool "a,b" (scratch)
example : parseKeys "a, b ,c" = ["a", "b", "c"] := by decide
example : parseKeys " , ,, " = [] := by decide
example : constructKM (some "a,b") =
    .ok { keys := [⟨"a", false, 0⟩, ⟨"b", false, 0⟩], currentKeyIndex := 0 } := by rfl
example :
    markKeyAsExhausted 0 { keys := [⟨"a", false, 0⟩, ⟨"b", false, 0⟩], currentKeyIndex := 0 } =
      { keys := [⟨"a", true, 0⟩, ⟨"b", false, 0⟩], currentKeyIndex := 1 } := by decide

/-! ### Helper lemmas about list access -/

lemma getD_map_entry (f : KeyEntry → KeyEntry) (ks : List KeyEntry) (i : Nat)
    (hi : i < ks.length) (d d' : KeyEntry) :
    (ks.map f).getD i d = f (ks.getD i d') := by
  induction ks generalizing i with
  | nil => simp at hi
  | cons a l ih =>
    cases i with
    | zero => simp [List.getD]
    | succ j =>
      simp only [List.length_cons, Nat.succ_lt_succ_iff] at hi
      simpa [List.getD] using ih j hi

lemma getD_set_self (ks : List KeyEntry) (i : Nat) (k' d : KeyEntry)
    (hi : i < ks.length) :
    (ks.set i k').getD i d = k' := by
  induction ks generalizing i with
  | nil => simp at hi
  | cons a l ih =>
    cases i with
    | zero => simp [List.getD]
    | succ j =>
      simp only [List.length_cons, Nat.succ_lt_succ_iff] at hi
      simpa [List.getD] using ih j hi

lemma getD_set_ne (ks : List KeyEntry) (i j : Nat) (k' d : KeyEntry)
    (hij : i ≠ j) :
    (ks.set j k').getD i d = ks.getD i d := by
  induction ks generalizing i j with
  | nil => simp
  | cons a l ih =>
    cases j with
    | zero =>
      cases i with
      | zero => exact absurd rfl hij
      | succ i' => simp [List.getD]
    | succ j' =>
      cases i with
      | zero => simp [List.getD]
      | succ i' =>
        simpa [List.getD] using ih i' j' (by omega)

lemma countP_set (p : KeyEntry → Bool) (ks : List KeyEntry) (i : Nat)
    (k' d : KeyEntry) (hi : i < ks.length) :
    List.countP p (ks.set i k') + (if p (ks.getD i d) then 1 else 0) =
      List.countP p ks + (if p k' then 1 else 0) := by
  induction ks generalizing i with
  | nil => simp at hi
  | cons a l ih =>
    cases i with
    | zero => simp [List.countP_cons, List.getD]; omega
    | succ j =>
      simp only [List.length_cons, Nat.succ_lt_succ_iff] at hi
      have := ih j hi
      simp only [List.set, List.countP_cons, List.getD_cons_succ]
      omega

/-! ### Basic facts about the pool operations -/

lemma length_reset (now : Nat) (ks : List KeyEntry) :
    (resetExhaustedKeys now ks).length = ks.length := by
  simp [resetExhaustedKeys]

/-- When every exhausted key was stamped less than 24 hours before `now`,
the reset sweep changes nothing. -/
lemma resetExhaustedKeys_noop (now : Nat) (ks : List KeyEntry)
    (h : ∀ k ∈ ks, k.quotaExhausted = true → now - k.lastUsed < twentyFourHours) :
    resetExhaustedKeys now ks = ks := by
  induction ks with
  | nil => rfl
  | cons a l ih =>
    have ha := h a (by simp)
    have hl : ∀ k ∈ l, k.quotaExhausted = true → now - k.lastUsed < twentyFourHours :=
      fun k hk => h k (by simp [hk])
    simp only [resetExhaustedKeys, List.map_cons] at *
    rw [ih hl]
    by_cases hc : now - a.lastUsed ≥ twentyFourHours
    · have hq : a.quotaExhausted = false := by
        by_contra hq
        have := ha (by revert hq; cases a.quotaExhausted <;> simp)
        omega
      cases a with
      | mk k q t =>
        simp only at hq
        simp [hc, hq]
    · simp [hc]

/-- There is a step count `1 ≤ i ≤ n` taking `start` to any position `j < n`
by circular advance. -/
lemma exists_step (n start j : Nat) (hs : start < n) (hj : j < n) :
    ∃ i, 1 ≤ i ∧ i ≤ n ∧ (start + i) % n = j := by
  rcases Nat.lt_or_ge start j with h | h
  · exact ⟨j - start, by omega, by omega, by
      have : start + (j - start) = j := by omega
      rw [this, Nat.mod_eq_of_lt hj]⟩
  · refine ⟨n + j - start, by omega, by omega, ?_⟩
    have : start + (n + j - start) = n + j := by omega
    rw [this, Nat.add_mod_left, Nat.mod_eq_of_lt hj]

/-- Postcondition of the rotation loop.  The invariants: the remaining fuel is
between 1 and `ks.length`, advancing `cursor` by the remaining fuel lands on
`start`, and every non-exhausted key is still ahead of the cursor within the
remaining fuel.  On exit the loop has either stopped on a non-exhausted key
with the key list untouched, or it has come all the way back to `start`
(having seen every other key exhausted) and run the reset sweep once. -/
lemma rotLoop_post (now start : Nat) (ks : List KeyEntry) (hstart : start < ks.length) :
    ∀ fuel cursor, cursor < ks.length → 1 ≤ fuel → fuel ≤ ks.length →
      (cursor + fuel) % ks.length = start →
      (∀ j, j < ks.length → exhAt ks j = false →
        ∃ i, 1 ≤ i ∧ i ≤ fuel ∧ (cursor + i) % ks.length = j) →
      (rotLoop now start fuel ks cursor).2 < ks.length ∧
      (((rotLoop now start fuel ks cursor).1 = ks ∧
        exhAt ks (rotLoop now start fuel ks cursor).2 = false) ∨
       ((rotLoop now start fuel ks cursor).2 = start ∧
        (rotLoop now start fuel ks cursor).1 = resetExhaustedKeys now ks ∧
        ∀ j, j < ks.length → j ≠ start → exhAt ks j = true)) := by
  have hn : 0 < ks.length := Nat.lt_of_le_of_lt (Nat.zero_le _) hstart
  intro fuel
  induction fuel with
  | zero => intro cursor _ h1 _ _ _; omega
  | succ f ih =>
    intro cursor hc h1 hle hcong V
    by_cases hcs : (cursor + 1) % ks.length = start
    · -- the cursor has come back to the start: sweep and exit
      have hfuel1 : f + 1 = 1 := by
        -- fuel ≡ 1 (mod n) and 1 ≤ fuel ≤ n force fuel = 1
        have hmod : (cursor + (f + 1)) % ks.length = (cursor + 1) % ks.length := by
          rw [hcong, hcs]
        have hme : (1 : Nat) ≡ f + 1 [MOD ks.length] :=
          (Nat.ModEq.add_left_cancel' cursor hmod.symm)
        have hdvd : ks.length ∣ (f + 1) - 1 := (Nat.modEq_iff_dvd' (by omega)).mp hme
        have : (f + 1) - 1 = 0 := by
          rcases Nat.eq_zero_or_pos ((f + 1) - 1) with h | h
          · exact h
          · exact absurd (Nat.le_of_dvd h hdvd) (by omega)
        omega
      have hexit : rotLoop now start (f + 1) ks cursor =
          (resetExhaustedKeys now ks, start) := by
        simp only [rotLoop, hcs, if_pos rfl]
        simp
      rw [hexit]
      refine ⟨hstart, Or.inr ⟨rfl, rfl, ?_⟩⟩
      intro j hj hjs
      by_contra hcontra
      have hj' : exhAt ks j = false := by
        revert hcontra; cases exhAt ks j <;> simp
      obtain ⟨i, hi1, hi2, hi3⟩ := V j hj hj'
      rw [hfuel1] at hi2
      have : i = 1 := by omega
      subst this
      exact hjs (hi3 ▸ hcs.symm ▸ rfl)
    · -- not back at the start: no sweep this iteration
      by_cases hexh : exhAt ks ((cursor + 1) % ks.length) = true
      · -- exhausted: the loop continues
        have hstep : rotLoop now start (f + 1) ks cursor =
            rotLoop now start f ks ((cursor + 1) % ks.length) := by
          simp only [rotLoop, if_neg hcs]
          rw [if_pos ⟨hexh, hcs⟩]
        rw [hstep]
        have hf1 : 1 ≤ f := by
          rcases Nat.eq_zero_or_pos f with h | h
          · subst h; exact absurd hcong hcs
          · exact h
        refine ih ((cursor + 1) % ks.length) (Nat.mod_lt _ hn) hf1 (by omega) ?_ ?_
        · rw [Nat.mod_add_mod]
          have : cursor + 1 + f = cursor + (f + 1) := by omega
          rw [this, hcong]
        · intro j hj hjf
          obtain ⟨i, hi1, hi2, hi3⟩ := V j hj hjf
          have hine : i ≠ 1 := by
            intro h
            subst h
            rw [hi3] at hexh
            rw [hjf] at hexh
            exact Bool.false_ne_true hexh
          refine ⟨i - 1, by omega, by omega, ?_⟩
          rw [Nat.mod_add_mod]
          have : cursor + 1 + (i - 1) = cursor + i := by omega
          rw [this, hi3]
      · -- found a non-exhausted key: exit with the list untouched
        have hexit : rotLoop now start (f + 1) ks cursor =
            (ks, (cursor + 1) % ks.length) := by
          simp only [rotLoop, if_neg hcs]
          rw [if_neg (by intro h; exact hexh h.1)]
        rw [hexit]
        exact ⟨Nat.mod_lt _ hn, Or.inl ⟨rfl, by
          revert hexh; cases exhAt ks ((cursor + 1) % ks.length) <;> simp⟩⟩

/-- Postcondition of `rotateToNextKey` on a well-formed pool: the length is
preserved, the cursor stays in range, and either the cursor now rests on a
non-exhausted key with the key list untouched, or the loop made one full
pass (every key other than the starting one was exhausted), ended back at
the starting index and ran the reset sweep once. -/
lemma rotateToNextKey_post (now : Nat) (s : APIKeyManager) (h : WF s) :
    (rotateToNextKey now s).keys.length = s.keys.length ∧
    (rotateToNextKey now s).currentKeyIndex < s.keys.length ∧
    (((rotateToNextKey now s).keys = s.keys ∧
      exhAt s.keys (rotateToNextKey now s).currentKeyIndex = false) ∨
     ((rotateToNextKey now s).currentKeyIndex = s.currentKeyIndex ∧
      (rotateToNextKey now s).keys = resetExhaustedKeys now s.keys ∧
      ∀ j, j < s.keys.length → j ≠ s.currentKeyIndex → exhAt s.keys j = true)) := by
  obtain ⟨hne, hcur⟩ := h
  have hpost := rotLoop_post now s.currentKeyIndex s.keys hcur s.keys.length
    s.currentKeyIndex hcur (by
      have : 0 < s.keys.length := List.length_pos.mpr hne
      omega) (le_refl _)
    (by rw [Nat.add_mod_right, Nat.mod_eq_of_lt hcur])
    (fun j hj _ => exists_step s.keys.length s.currentKeyIndex j hcur hj)
  obtain ⟨h1, h2⟩ := hpost
  refine ⟨?_, h1, ?_⟩
  · rcases h2 with ⟨hk, _⟩ | ⟨_, hk, _⟩
    · simp [rotateToNextKey, hk]
    · simp [rotateToNextKey, hk, length_reset]
  · rcases h2 with ⟨hk, he⟩ | ⟨hc, hk, hall⟩
    · exact Or.inl ⟨hk, he⟩
    · exact Or.inr ⟨hc, hk, hall⟩

/-- `rotateToNextKey` preserves well-formedness. -/
lemma rotateToNextKey_WF (now : Nat) (s : APIKeyManager) (h : WF s) :
    WF (rotateToNextKey now s) := by
  obtain ⟨hlen, hcur, _⟩ := rotateToNextKey_post now s h
  refine ⟨?_, by omega⟩
  intro hnil
  have := h.1
  rw [hnil] at hlen
  simp at hlen
  exact this (List.length_eq_zero.mp hlen.symm)

lemma markKeyAsExhausted_eq (now : Nat) (s : APIKeyManager) :
    markKeyAsExhausted now s =
      rotateToNextKey now { keys := stampedKeys now s, currentKeyIndex := s.currentKeyIndex } := by
  rfl

lemma length_stampedKeys (now : Nat) (s : APIKeyManager) :
    (stampedKeys now s).length = s.keys.length := by
  simp [stampedKeys]

/-- `markKeyAsExhausted` preserves well-formedness. -/
lemma markKeyAsExhausted_WF (now : Nat) (s : APIKeyManager) (h : WF s) :
    WF (markKeyAsExhausted now s) := by
  rw [markKeyAsExhausted_eq]
  refine rotateToNextKey_WF now _ ⟨?_, ?_⟩
  · intro hnil
    have := congrArg List.length hnil
    rw [length_stampedKeys] at this
    exact h.1 (List.length_eq_zero.mp this)
  · simpa [length_stampedKeys] using h.2

/-- Every reachable pool state is well-formed (in particular the cursor is a
valid index). -/
lemma reachable_WF (s : APIKeyManager) (h : Reachable s) : WF s := by
  induction h with
  | constructed cfg s hs =>
    cases cfg with
    | none => simp [constructKM] at hs
    | some raw =>
      simp only [constructKM] at hs
      by_cases h1 : String.mk (trimChars raw.data) = ""
      · rw [if_pos h1] at hs; cases hs
      · rw [if_neg h1] at hs
        by_cases h2 : parseKeys raw = []
        · rw [if_pos h2] at hs; cases hs
        · rw [if_neg h2] at hs
          cases hs
          constructor
          · simpa using h2
          · simp only [List.length_map]
            have := List.length_pos.mpr h2
            simpa using this
  | mark now s _ ih => exact markKeyAsExhausted_WF now s ih
  | rotate now s _ ih => exact rotateToNextKey_WF now s ih

lemma twentyFourHours_pos : 0 < twentyFourHours := by decide

lemma exhAt_stampedKeys_cursor (now : Nat) (s : APIKeyManager) (h : WF s) :
    exhAt (stampedKeys now s) s.currentKeyIndex = true := by
  unfold exhAt stampedKeys
  rw [getD_set_self s.keys s.currentKeyIndex _ _ h.2]
  rfl

lemma getD_stampedKeys_cursor (now : Nat) (s : APIKeyManager) (h : WF s) :
    (stampedKeys now s).getD s.currentKeyIndex default = markedEntry now s := by
  unfold stampedKeys
  exact getD_set_self s.keys s.currentKeyIndex _ _ h.2

/-- After `markKeyAsExhausted`, the entry at the pre-call cursor index is
still exhausted: the reset sweep cannot clear a key whose `lastUsed` was just
stamped with the current time. -/
lemma markKeyAsExhausted_keeps_marked (now : Nat) (s : APIKeyManager) (h : WF s) :
    exhAt (markKeyAsExhausted now s).keys s.currentKeyIndex = true := by
  rw [markKeyAsExhausted_eq]
  set m : APIKeyManager := { keys := stampedKeys now s, currentKeyIndex := s.currentKeyIndex }
  have hwfm : WF m := by
    constructor
    · intro hnil
      have := congrArg List.length hnil
      rw [length_stampedKeys] at this
      exact h.1 (List.length_eq_zero.mp this)
    · simpa [m, length_stampedKeys] using h.2
  have hcurm : s.currentKeyIndex < (stampedKeys now s).length := by
    simpa [length_stampedKeys] using h.2
  obtain ⟨_, _, hpost⟩ := rotateToNextKey_post now m hwfm
  rcases hpost with ⟨hk, _⟩ | ⟨_, hk, _⟩
  · rw [hk]
    exact exhAt_stampedKeys_cursor now s h
  · rw [hk]
    show exhAt (resetExhaustedKeys now m.keys) s.currentKeyIndex = true
    unfold exhAt resetExhaustedKeys
    rw [getD_map_entry _ m.keys s.currentKeyIndex hcurm default default]
    have : m.keys.getD s.currentKeyIndex default = markedEntry now s :=
      getD_stampedKeys_cursor now s h
    rw [this]
    have hfresh : ¬ (now - (markedEntry now s).lastUsed ≥ twentyFourHours) := by
      have := twentyFourHours_pos
      simp only [markedEntry]
      omega
    rw [if_neg hfresh]
    simp [markedEntry]

/-- Dichotomy after `markKeyAsExhausted`: either the new cursor rests on a
non-exhausted key, or — at the moment the rotation completed its full loop,
before the reset sweep ran — every key of the pool was exhausted. -/
lemma markKeyAsExhausted_dichotomy (now : Nat) (s : APIKeyManager) (h : WF s) :
    exhAt (markKeyAsExhausted now s).keys (markKeyAsExhausted now s).currentKeyIndex = false ∨
    (∀ j, j < s.keys.length → exhAt (stampedKeys now s) j = true) := by
  rw [markKeyAsExhausted_eq]
  set m : APIKeyManager := { keys := stampedKeys now s, currentKeyIndex := s.currentKeyIndex }
  have hwfm : WF m := by
    constructor
    · intro hnil
      have := congrArg List.length hnil
      rw [length_stampedKeys] at this
      exact h.1 (List.length_eq_zero.mp this)
    · simpa [m, length_stampedKeys] using h.2
  obtain ⟨_, _, hpost⟩ := rotateToNextKey_post now m hwfm
  rcases hpost with ⟨hk, he⟩ | ⟨_, _, hall⟩
  · left
    rw [hk]
    exact he
  · right
    intro j hj
    by_cases hjc : j = s.currentKeyIndex
    · subst hjc
      exact exhAt_stampedKeys_cursor now s h
    · exact hall j (by simpa [m, length_stampedKeys] using hj) hjc

/-! ### Counting exhausted keys and availability -/

lemma exhAt_mem (ks : List KeyEntry) (j : Nat) (hj : j < ks.length) :
    ks.getD j default ∈ ks := by
  induction ks generalizing j with
  | nil => simp at hj
  | cons a l ih =>
    cases j with
    | zero => simp [List.getD]
    | succ i =>
      simp only [List.length_cons, Nat.succ_lt_succ_iff] at hj
      simp only [List.getD_cons_succ]
      exact List.mem_cons_of_mem a (ih i hj)

lemma mem_exhAt (ks : List KeyEntry) (k : KeyEntry) (hk : k ∈ ks) :
    ∃ j, j < ks.length ∧ ks.getD j default = k := by
  induction ks with
  | nil => simp at hk
  | cons a l ih =>
    rcases List.mem_cons.mp hk with h | h
    · exact ⟨0, by simp, by simp [List.getD, h.symm]⟩
    · obtain ⟨j, hj, hg⟩ := ih h
      exact ⟨j + 1, by simpa using hj, by simpa [List.getD_cons_succ] using hg⟩

lemma forall_exhAt_iff (ks : List KeyEntry) :
    (∀ j, j < ks.length → exhAt ks j = true) ↔ ∀ k ∈ ks, k.quotaExhausted = true := by
  constructor
  · intro h k hk
    obtain ⟨j, hj, hg⟩ := mem_exhAt ks k hk
    have := h j hj
    rwa [exhAt, hg] at this
  · intro h j hj
    exact h _ (exhAt_mem ks j hj)

lemma hasAvailableKeys_iff_exists (s : APIKeyManager) :
    hasAvailableKeys s = true ↔ ∃ k ∈ s.keys, k.quotaExhausted = false := by
  simp [hasAvailableKeys, List.any_eq_true]

lemma hasAvailableKeys_iff_count (s : APIKeyManager) :
    hasAvailableKeys s = true ↔ exhCount s.keys < s.keys.length := by
  rw [hasAvailableKeys_iff_exists]
  constructor
  · intro ⟨k, hk, hq⟩
    have hle : exhCount s.keys ≤ s.keys.length := List.countP_le_length _
    rcases Nat.lt_or_ge (exhCount s.keys) s.keys.length with h | h
    · exact h
    · have heq : exhCount s.keys = s.keys.length := by omega
      have := (List.countP_eq_length.mp heq) k hk
      simp [hq] at this
  · intro h
    by_contra hcon
    push_neg at hcon
    have : ∀ k ∈ s.keys, k.quotaExhausted = true := by
      intro k hk
      have := hcon k hk
      revert this; cases k.quotaExhausted <;> simp
    have : exhCount s.keys = s.keys.length := List.countP_eq_length.mpr this
    omega

/-- When no exhausted key is stale (the reset sweep cannot clear anything)
and some key is available, rotation leaves the key list untouched and lands
the cursor on a non-exhausted key. -/
lemma rotate_noReset (now : Nat) (s : APIKeyManager) (h : WF s)
    (hnr : ∀ k ∈ s.keys, k.quotaExhausted = true → now - k.lastUsed < twentyFourHours)
    (hav : hasAvailableKeys s = true) :
    (rotateToNextKey now s).keys = s.keys ∧
    exhAt s.keys (rotateToNextKey now s).currentKeyIndex = false := by
  obtain ⟨_, _, hpost⟩ := rotateToNextKey_post now s h
  rcases hpost with ⟨hk, he⟩ | ⟨hc, hk, hall⟩
  · exact ⟨hk, he⟩
  · rw [resetExhaustedKeys_noop now s.keys hnr] at hk
    obtain ⟨k, hkm, hq⟩ := (hasAvailableKeys_iff_exists s).mp hav
    obtain ⟨j, hj, hg⟩ := mem_exhAt s.keys k hkm
    have hje : exhAt s.keys j = false := by rw [exhAt, hg, hq]
    have hjs : j = s.currentKeyIndex := by
      by_contra hne
      have := hall j hj hne
      rw [hje] at this
      cases this
    refine ⟨hk, ?_⟩
    rw [hc, ← hjs, hje]

/-! ## Claim theorems -/

/-- C7: construction fails with a configuration error when the input is
missing, empty, or has zero valid entries after trimming and filtering
(e.g. only commas and whitespace); construction with `"a, b ,c"` yields
exactly the three trimmed credentials `["a","b","c"]`, each initialized
non-exhausted with `lastUsed = 0` and the cursor at the first entry. -/
theorem constructKM_validates_and_trims :
    constructKM none = .error .noKeysProvided ∧
    constructKM (some "") = .error .noKeysProvided ∧
    constructKM (some " ,  ,, ") = .error .noValidKeys ∧
    (∀ raw, parseKeys raw = [] → ∃ e, constructKM (some raw) = .error e) ∧
    constructKM (some "a, b ,c") = .ok
      { keys := [⟨"a", false, 0⟩, ⟨"b", false, 0⟩, ⟨"c", false, 0⟩]
        currentKeyIndex := 0 } := by
  refine ⟨rfl, by rfl, by rfl, ?_, by rfl⟩
  intro raw hp
  by_cases h1 : String.mk (trimChars raw.data) = ""
  · exact ⟨.noKeysProvided, by simp [constructKM, h1]⟩
  · exact ⟨.noValidKeys, by simp [constructKM, h1, hp]⟩

/-- C7 witness: a concrete input with zero valid entries. -/
theorem constructKM_validates_and_trims_witness :
    parseKeys "," = [] ∧ ∃ e, constructKM (some ",") = .error e :=
  ⟨by decide, constructKM_validates_and_trims.2.2.2.1 "," (by decide)⟩

/-- C10: after any `markKeyAsExhausted` call on a well-formed pool, the
credential that was at the cursor when the call began is still marked
exhausted when the call returns: the lazy reset sweep that may run during
the rotation inside that call can never clear it, because the call stamps
its `lastUsed` with the current time before rotating and the 24-hour
window is positive. -/
theorem markKeyAsExhausted_stays_exhausted (now : Nat) (s : APIKeyManager)
    (h : WF s) :
    exhAt (markKeyAsExhausted now s).keys s.currentKeyIndex = true :=
  markKeyAsExhausted_keeps_marked now s h

/-- C10 witness at a concrete pool. -/
theorem markKeyAsExhausted_stays_exhausted_witness :
    exhAt (markKeyAsExhausted 7 poolA).keys poolA.currentKeyIndex = true :=
  markKeyAsExhausted_stays_exhausted 7 poolA ⟨by decide, by decide⟩

/-- C1 counterexample: from the pool built from `"a,b"`, mark at time `0`
(exhausts `a`, cursor moves to `b`), then mark at time `86400000` (24h
later).  The rotation's full loop triggers the reset sweep, which revives
`a`, but the cursor stays on the just-exhausted `b`: afterwards
`hasAvailableKeys` is true, the cursor rests on an exhausted credential,
and `getCurrentKey` silently returns the exhausted credential's secret
`"b"` — refuting the claimed invariant and the claimed behaviour of
`getCurrentKey`. -/
theorem rotation_dichotomy_counterexample :
    constructKM (some "a,b") = .ok poolAB ∧
    hasAvailableKeys (markKeyAsExhausted 86400000 (markKeyAsExhausted 0 poolAB)) = true ∧
    exhAt (markKeyAsExhausted 86400000 (markKeyAsExhausted 0 poolAB)).keys
      (markKeyAsExhausted 86400000 (markKeyAsExhausted 0 poolAB)).currentKeyIndex = true ∧
    getCurrentKey (markKeyAsExhausted 86400000 (markKeyAsExhausted 0 poolAB)) = .ok "b" :=
  ⟨by rfl, by decide, by decide, by rfl⟩

/-- C1 (amended): for every credential pool and every sequence of pool
operations the cursor points at a valid index; after any rotation either
the cursor points to a non-exhausted credential, or every other credential
was exhausted when the rotation completed its full loop — and after a
rotation triggered by `markKeyAsExhausted`, every credential of the pool
was exhausted at that moment, immediately before the lazy reset sweep ran.
The sweep may then revive other credentials while the cursor stays on an
exhausted one, so `getCurrentKey`, whenever `hasAvailableKeys` is true,
returns the secret at the cursor, which can be an exhausted credential's
secret (see the counterexample). -/
theorem cursor_valid_and_rotation_dichotomy :
    (∀ s, Reachable s → s.currentKeyIndex < s.keys.length) ∧
    (∀ now s, WF s →
      (exhAt (rotateToNextKey now s).keys (rotateToNextKey now s).currentKeyIndex = false ∨
       ∀ j, j < s.keys.length → j ≠ s.currentKeyIndex → exhAt s.keys j = true)) ∧
    (∀ now s, WF s →
      (exhAt (markKeyAsExhausted now s).keys (markKeyAsExhausted now s).currentKeyIndex = false ∨
       ∀ j, j < s.keys.length → exhAt (stampedKeys now s) j = true)) ∧
    (∀ s, hasAvailableKeys s = true →
      getCurrentKey s = .ok (s.keys.getD s.currentKeyIndex default).key) := by
  refine ⟨fun s h => (reachable_WF s h).2, ?_, ?_, ?_⟩
  · intro now s h
    obtain ⟨_, _, hpost⟩ := rotateToNextKey_post now s h
    rcases hpost with ⟨hk, he⟩ | ⟨_, _, hall⟩
    · exact Or.inl (by rw [hk]; exact he)
    · exact Or.inr hall
  · exact fun now s h => markKeyAsExhausted_dichotomy now s h
  · intro s h
    simp [getCurrentKey, h]

/-- C1 (amended) witness at concrete inputs. -/
theorem cursor_valid_and_rotation_dichotomy_witness :
    poolAB.currentKeyIndex < poolAB.keys.length ∧
    (exhAt (rotateToNextKey 3 poolAB).keys (rotateToNextKey 3 poolAB).currentKeyIndex = false ∨
     ∀ j, j < poolAB.keys.length → j ≠ poolAB.currentKeyIndex → exhAt poolAB.keys j = true) ∧
    (exhAt (markKeyAsExhausted 3 poolAB).keys (markKeyAsExhausted 3 poolAB).currentKeyIndex = false ∨
     ∀ j, j < poolAB.keys.length → exhAt (stampedKeys 3 poolAB) j = true) ∧
    getCurrentKey poolAB = .ok (poolAB.keys.getD poolAB.currentKeyIndex default).key :=
  ⟨cursor_valid_and_rotation_dichotomy.1 poolAB
     (Reachable.constructed (some "a,b") poolAB (by rfl)),
   cursor_valid_and_rotation_dichotomy.2.1 3 poolAB ⟨by decide, by decide⟩,
   cursor_valid_and_rotation_dichotomy.2.2.1 3 poolAB ⟨by decide, by decide⟩,
   cursor_valid_and_rotation_dichotomy.2.2.2 poolAB (by decide)⟩

/-! ### Further facts about `markKeyAsExhausted` -/

lemma WF_stamped (now : Nat) (s : APIKeyManager) (h : WF s) :
    WF { keys := stampedKeys now s, currentKeyIndex := s.currentKeyIndex } := by
  constructor
  · intro hnil
    have := congrArg List.length hnil
    rw [length_stampedKeys] at this
    exact h.1 (List.length_eq_zero.mp this)
  · simpa [length_stampedKeys] using h.2

lemma mark_length (now : Nat) (s : APIKeyManager) (h : WF s) :
    (markKeyAsExhausted now s).keys.length = s.keys.length := by
  rw [markKeyAsExhausted_eq]
  have := (rotateToNextKey_post now _ (WF_stamped now s h)).1
  simpa [length_stampedKeys] using this

/-- The entry at the pre-call cursor index after `markKeyAsExhausted` is
exactly the freshly stamped entry (the sweep cannot touch it). -/
lemma mark_getD_cursor (now : Nat) (s : APIKeyManager) (h : WF s) :
    (markKeyAsExhausted now s).keys.getD s.currentKeyIndex default = markedEntry now s := by
  rw [markKeyAsExhausted_eq]
  set m : APIKeyManager := { keys := stampedKeys now s, currentKeyIndex := s.currentKeyIndex }
  have hcurm : s.currentKeyIndex < (stampedKeys now s).length := by
    simpa [length_stampedKeys] using h.2
  obtain ⟨_, _, hpost⟩ := rotateToNextKey_post now m (WF_stamped now s h)
  rcases hpost with ⟨hk, _⟩ | ⟨_, hk, _⟩
  · rw [hk]
    exact getD_stampedKeys_cursor now s h
  · rw [hk]
    show (resetExhaustedKeys now m.keys).getD s.currentKeyIndex default = markedEntry now s
    unfold resetExhaustedKeys
    rw [getD_map_entry _ m.keys s.currentKeyIndex hcurm default default]
    have hm : m.keys.getD s.currentKeyIndex default = markedEntry now s :=
      getD_stampedKeys_cursor now s h
    rw [hm]
    have hfresh : ¬ (now - (markedEntry now s).lastUsed ≥ twentyFourHours) := by
      have := twentyFourHours_pos
      simp only [markedEntry]
      omega
    rw [if_neg hfresh]

/-- After `markKeyAsExhausted`, either the cursor rests on a non-exhausted
key, or the cursor is unchanged and the entry under it is the freshly
stamped one. -/
lemma mark_cursor_cases (now : Nat) (s : APIKeyManager) (h : WF s) :
    exhAt (markKeyAsExhausted now s).keys (markKeyAsExhausted now s).currentKeyIndex = false ∨
    ((markKeyAsExhausted now s).currentKeyIndex = s.currentKeyIndex ∧
     (markKeyAsExhausted now s).keys.getD (markKeyAsExhausted now s).currentKeyIndex default
       = markedEntry now s) := by
  have hcur := mark_getD_cursor now s h
  rw [markKeyAsExhausted_eq] at *
  set m : APIKeyManager := { keys := stampedKeys now s, currentKeyIndex := s.currentKeyIndex }
  obtain ⟨_, _, hpost⟩ := rotateToNextKey_post now m (WF_stamped now s h)
  rcases hpost with ⟨hk, he⟩ | ⟨hc, _, _⟩
  · left
    rw [hk]
    exact he
  · right
    have hc' : (rotateToNextKey now m).currentKeyIndex = s.currentKeyIndex := hc
    exact ⟨hc', by rw [hc']; exact hcur⟩

/-! ### Fresh-exhausted entries survive the fetch recursion -/

/-- Entry `i` is exhausted and was stamped within the reset window of the
fixed instant `now` (so no sweep at `now` can clear it). -/
def exhFresh (now : Nat) (ks : List KeyEntry) (i : Nat) : Prop :=
  exhAt ks i = true ∧ now - (ks.getD i default).lastUsed < twentyFourHours

lemma exhFresh_reset (now : Nat) (ks : List KeyEntry) (i : Nat) (hi : i < ks.length) :
    exhFresh now ks i → exhFresh now (resetExhaustedKeys now ks) i := by
  intro ⟨he, hf⟩
  unfold exhFresh exhAt resetExhaustedKeys at *
  rw [getD_map_entry _ ks i hi default default, if_neg (by omega)]
  exact ⟨he, hf⟩

lemma exhFresh_stamped (now : Nat) (s : APIKeyManager) (h : WF s) (i : Nat)
    (hi : i < s.keys.length) :
    exhFresh now s.keys i → exhFresh now (stampedKeys now s) i := by
  intro ⟨he, hf⟩
  by_cases hic : i = s.currentKeyIndex
  · subst hic
    unfold exhFresh exhAt stampedKeys
    rw [getD_set_self _ _ _ _ h.2]
    refine ⟨rfl, ?_⟩
    have := twentyFourHours_pos
    simp only [markedEntry]
    omega
  · unfold exhFresh exhAt stampedKeys at *
    rw [getD_set_ne _ _ _ _ _ hic]
    exact ⟨he, hf⟩

lemma exhFresh_mark (now : Nat) (s : APIKeyManager) (h : WF s) (i : Nat)
    (hi : i < s.keys.length) :
    exhFresh now s.keys i → exhFresh now (markKeyAsExhausted now s).keys i := by
  intro hef
  rw [markKeyAsExhausted_eq]
  set m : APIKeyManager := { keys := stampedKeys now s, currentKeyIndex := s.currentKeyIndex }
  have hi' : i < (stampedKeys now s).length := by simpa [length_stampedKeys] using hi
  obtain ⟨_, _, hpost⟩ := rotateToNextKey_post now m (WF_stamped now s h)
  rcases hpost with ⟨hk, _⟩ | ⟨_, hk, _⟩
  · rw [hk]
    exact exhFresh_stamped now s h i hi hef
  · rw [hk]
    exact exhFresh_reset now m.keys i hi' (exhFresh_stamped now s h i hi hef)

/-- The cursor entry right after `markKeyAsExhausted` is fresh-exhausted at
the pre-call cursor index. -/
lemma exhFresh_mark_cursor (now : Nat) (s : APIKeyManager) (h : WF s) :
    exhFresh now (markKeyAsExhausted now s).keys s.currentKeyIndex := by
  unfold exhFresh
  constructor
  · exact markKeyAsExhausted_keeps_marked now s h
  · rw [mark_getD_cursor now s h]
    have := twentyFourHours_pos
    simp only [markedEntry]
    omega

/-! ### Fetch-layer lemmas -/

lemma getCurrentKey_of_available (s : APIKeyManager) (h : hasAvailableKeys s = true) :
    getCurrentKey s = .ok (s.keys.getD s.currentKeyIndex default).key := by
  simp [getCurrentKey, h]

/-- C3: `fetchVideosFromYouTube` fails whenever no credential is available
and performs no further retry in that case — before starting it throws the
dedicated all-exhausted error, and after marking the current credential
exhausted on a forbidden (403) response with no credential remaining it
rethrows that 403; an error whose status is not 403 is not retried at all
and propagates to the caller unchanged, with the pool untouched. -/
theorem fetch_error_handling :
    (∀ oracle now query pt fuel (s : APIKeyManager),
      hasAvailableKeys s = false →
      fetchVideosFromYouTube oracle now query pt (fuel + 1) s = (.error .allExhausted, s)) ∧
    (∀ oracle now query pt fuel (s : APIKeyManager),
      hasAvailableKeys s = true →
      oracle (s.keys.getD s.currentKeyIndex default).key query pt = .err (some 403) →
      hasAvailableKeys (markKeyAsExhausted now s) = false →
      fetchVideosFromYouTube oracle now query pt (fuel + 1) s =
        (.error (.upstream (some 403)), markKeyAsExhausted now s)) ∧
    (∀ oracle now query pt fuel (s : APIKeyManager) status,
      hasAvailableKeys s = true →
      oracle (s.keys.getD s.currentKeyIndex default).key query pt = .err status →
      status ≠ some 403 →
      fetchVideosFromYouTube oracle now query pt (fuel + 1) s =
        (.error (.upstream status), s)) := by
  refine ⟨?_, ?_, ?_⟩
  · intro oracle now query pt fuel s h
    simp [fetchVideosFromYouTube, h]
  · intro oracle now query pt fuel s h1 h2 h3
    simp only [List.getD_eq_getElem?_getD] at h2
    simp [fetchVideosFromYouTube, h1, getCurrentKey_of_available s h1, h2, h3]
  · intro oracle now query pt fuel s status h1 h2 h3
    simp only [List.getD_eq_getElem?_getD] at h2
    simp [fetchVideosFromYouTube, h1, getCurrentKey_of_available s h1, h2, h3]

/-- C3 witness: a one-key pool rethrows the 403 after exhausting its only
key, and a 500 propagates unchanged without any marking. -/
theorem fetch_error_handling_witness :
    fetchVideosFromYouTube (fun _ _ _ => .err (some 403)) 0 "q" none 5
        { keys := [⟨"a", true, 0⟩], currentKeyIndex := 0 } =
      (.error .allExhausted, { keys := [⟨"a", true, 0⟩], currentKeyIndex := 0 }) ∧
    fetchVideosFromYouTube (fun _ _ _ => .err (some 403)) 0 "q" none 5 poolA =
      (.error (.upstream (some 403)), markKeyAsExhausted 0 poolA) ∧
    fetchVideosFromYouTube (fun _ _ _ => .err (some 500)) 0 "q" none 5 poolA =
      (.error (.upstream (some 500)), poolA) :=
  ⟨fetch_error_handling.1 (fun _ _ _ => .err (some 403)) 0 "q" none 4
     { keys := [⟨"a", true, 0⟩], currentKeyIndex := 0 } (by decide),
   fetch_error_handling.2.1 (fun _ _ _ => .err (some 403)) 0 "q" none 4 poolA
     (by decide) (by rfl) (by decide),
   fetch_error_handling.2.2 (fun _ _ _ => .err (some 500)) 0 "q" none 4 poolA
     (some 500) (by decide) (by rfl) (by decide)⟩

/-- Every result the fetch recursion can return, the pool it returns, keeps
its length, keeps every fresh-exhausted entry fresh-exhausted, and stays
well-formed. -/
lemma fetch_preserves (oracle : String → String → Option String → Resp)
    (now : Nat) (query : String) (pt : Option String) :
    ∀ fuel (s sf : APIKeyManager) (r : Except SvcErr Page), WF s →
      fetchVideosFromYouTube oracle now query pt fuel s = (r, sf) →
      WF sf ∧ sf.keys.length = s.keys.length ∧
      (∀ i, i < s.keys.length → exhFresh now s.keys i → exhFresh now sf.keys i) := by
  intro fuel
  induction fuel with
  | zero =>
    intro s sf r hwf heq
    simp only [fetchVideosFromYouTube] at heq
    cases heq
    exact ⟨hwf, rfl, fun i _ hf => hf⟩
  | succ f ih =>
    intro s sf r hwf heq
    by_cases h1 : hasAvailableKeys s = true
    · have hg := getCurrentKey_of_available s h1
      rcases horacle : oracle (s.keys.getD s.currentKeyIndex default).key query pt
        with page | status
      · rw [show fetchVideosFromYouTube oracle now query pt (f + 1) s = (.ok page, s) by
          simp only [List.getD_eq_getElem?_getD] at horacle
          simp [fetchVideosFromYouTube, h1, hg, horacle]] at heq
        cases heq
        exact ⟨hwf, rfl, fun i _ hf => hf⟩
      · by_cases h403 : status = some 403
        · subst h403
          by_cases h2 : hasAvailableKeys (markKeyAsExhausted now s) = true
          · rw [show fetchVideosFromYouTube oracle now query pt (f + 1) s =
                fetchVideosFromYouTube oracle now query pt f (markKeyAsExhausted now s) by
              simp only [List.getD_eq_getElem?_getD] at horacle
              simp [fetchVideosFromYouTube, h1, hg, horacle, h2]] at heq
            have hwf' : WF (markKeyAsExhausted now s) := markKeyAsExhausted_WF now s hwf
            obtain ⟨ha, hb, hc⟩ := ih (markKeyAsExhausted now s) sf r hwf' heq
            refine ⟨ha, by rw [hb, mark_length now s hwf], ?_⟩
            intro i hi hf
            have hi' : i < (markKeyAsExhausted now s).keys.length := by
              rw [mark_length now s hwf]; exact hi
            exact hc i hi' (exhFresh_mark now s hwf i hi hf)
          · rw [show fetchVideosFromYouTube oracle now query pt (f + 1) s =
                (.error (.upstream (some 403)), markKeyAsExhausted now s) by
              simp only [List.getD_eq_getElem?_getD] at horacle
              simp [fetchVideosFromYouTube, h1, hg, horacle, h2]] at heq
            cases heq
            exact ⟨markKeyAsExhausted_WF now s hwf, mark_length now s hwf,
              fun i hi hf => exhFresh_mark now s hwf i hi hf⟩
        · rw [show fetchVideosFromYouTube oracle now query pt (f + 1) s =
              (.error (.upstream status), s) by
            simp only [List.getD_eq_getElem?_getD] at horacle
            simp [fetchVideosFromYouTube, h1, hg, horacle, h403]] at heq
          cases heq
          exact ⟨hwf, rfl, fun i _ hf => hf⟩
    · have h1' : hasAvailableKeys s = false := by
        revert h1; cases hasAvailableKeys s <;> simp
      rw [show fetchVideosFromYouTube oracle now query pt (f + 1) s =
          (.error .allExhausted, s) by simp [fetchVideosFromYouTube, h1']] at heq
      cases heq
      exact ⟨hwf, rfl, fun i _ hf => hf⟩

/-- When the fetch recursion succeeds, the pool it leaves behind has its
cursor on a non-exhausted key whose oracle response is the returned page —
provided that, whenever the entry under the starting cursor is exhausted,
that entry's response is the 403 that exhausted it (true initially in the
retry scenario and preserved by every marking). -/
lemma fetch_ok_inv (oracle : String → String → Option String → Resp)
    (now : Nat) (query : String) (pt : Option String) :
    ∀ fuel (s sf : APIKeyManager) (p : Page), WF s →
      (exhAt s.keys s.currentKeyIndex = true →
        oracle (s.keys.getD s.currentKeyIndex default).key query pt = .err (some 403)) →
      fetchVideosFromYouTube oracle now query pt fuel s = (.ok p, sf) →
      exhAt sf.keys sf.currentKeyIndex = false ∧
      oracle (sf.keys.getD sf.currentKeyIndex default).key query pt = .ok p := by
  intro fuel
  induction fuel with
  | zero =>
    intro s sf p hwf hc heq
    simp only [fetchVideosFromYouTube] at heq
    exact absurd heq (by simp)
  | succ f ih =>
    intro s sf p hwf hc heq
    by_cases h1 : hasAvailableKeys s = true
    · have hg := getCurrentKey_of_available s h1
      rcases horacle : oracle (s.keys.getD s.currentKeyIndex default).key query pt
        with page | status
      · rw [show fetchVideosFromYouTube oracle now query pt (f + 1) s = (.ok page, s) by
          simp only [List.getD_eq_getElem?_getD] at horacle
          simp [fetchVideosFromYouTube, h1, hg, horacle]] at heq
        have hps : p = page ∧ s = sf := by
          cases heq
          exact ⟨rfl, rfl⟩
        obtain ⟨hp, hs⟩ := hps
        subst hp; subst hs
        have hcur : exhAt s.keys s.currentKeyIndex = false := by
          by_contra hT
          have hT' : exhAt s.keys s.currentKeyIndex = true := by
            revert hT; cases exhAt s.keys s.currentKeyIndex <;> simp
          rw [hc hT'] at horacle
          cases horacle
        exact ⟨hcur, horacle⟩
      · by_cases h403 : status = some 403
        · subst h403
          by_cases h2 : hasAvailableKeys (markKeyAsExhausted now s) = true
          · rw [show fetchVideosFromYouTube oracle now query pt (f + 1) s =
                fetchVideosFromYouTube oracle now query pt f (markKeyAsExhausted now s) by
              simp only [List.getD_eq_getElem?_getD] at horacle
              simp [fetchVideosFromYouTube, h1, hg, horacle, h2]] at heq
            refine ih (markKeyAsExhausted now s) sf p (markKeyAsExhausted_WF now s hwf) ?_ heq
            intro hT
            rcases mark_cursor_cases now s hwf with hfalse | ⟨hceq, hentry⟩
            · rw [hfalse] at hT
              cases hT
            · rw [hentry]
              have : (markedEntry now s).key = (s.keys.getD s.currentKeyIndex default).key := rfl
              rw [this]
              exact horacle
          · rw [show fetchVideosFromYouTube oracle now query pt (f + 1) s =
                (.error (.upstream (some 403)), markKeyAsExhausted now s) by
              simp only [List.getD_eq_getElem?_getD] at horacle
              simp [fetchVideosFromYouTube, h1, hg, horacle, h2]] at heq
            exact absurd heq (by simp)
        · rw [show fetchVideosFromYouTube oracle now query pt (f + 1) s =
              (.error (.upstream status), s) by
            simp only [List.getD_eq_getElem?_getD] at horacle
            simp [fetchVideosFromYouTube, h1, hg, horacle, h403]] at heq
          exact absurd heq (by simp)
    · have h1' : hasAvailableKeys s = false := by
        revert h1; cases hasAvailableKeys s <;> simp
      rw [show fetchVideosFromYouTube oracle now query pt (f + 1) s =
          (.error .allExhausted, s) by simp [fetchVideosFromYouTube, h1']] at heq
      exact absurd heq (by simp)

/-- C5: every `fetchVideosFromYouTube` call that receives a forbidden (403)
response on its first attempt (using the credential under the cursor, A)
and that returns a page successfully must have succeeded on the credential
under the final cursor (B, whose oracle response is the returned page):
the call returns B's result page, credential A is marked exhausted in the
final pool, and credential B is not exhausted. -/
theorem fetch_retry_success (oracle : String → String → Option String → Resp)
    (now : Nat) (query : String) (pt : Option String) (fuel : Nat)
    (s sf : APIKeyManager) (p : Page) (hwf : WF s)
    (h403 : oracle (s.keys.getD s.currentKeyIndex default).key query pt = .err (some 403))
    (hok : fetchVideosFromYouTube oracle now query pt fuel s = (.ok p, sf)) :
    exhAt sf.keys s.currentKeyIndex = true ∧
    exhAt sf.keys sf.currentKeyIndex = false ∧
    oracle (sf.keys.getD sf.currentKeyIndex default).key query pt = .ok p := by
  cases fuel with
  | zero =>
    simp only [fetchVideosFromYouTube] at hok
    exact absurd hok (by simp)
  | succ f =>
    by_cases h1 : hasAvailableKeys s = true
    · have hg := getCurrentKey_of_available s h1
      by_cases h2 : hasAvailableKeys (markKeyAsExhausted now s) = true
      · rw [show fetchVideosFromYouTube oracle now query pt (f + 1) s =
            fetchVideosFromYouTube oracle now query pt f (markKeyAsExhausted now s) by
          have horacle := h403
          simp only [List.getD_eq_getElem?_getD] at horacle
          simp [fetchVideosFromYouTube, h1, hg, horacle, h2]] at hok
        have hwf' : WF (markKeyAsExhausted now s) := markKeyAsExhausted_WF now s hwf
        obtain ⟨_, _, hpres⟩ :=
          fetch_preserves oracle now query pt f (markKeyAsExhausted now s) sf (.ok p) hwf' hok
        have hAcur : exhFresh now sf.keys s.currentKeyIndex :=
          hpres s.currentKeyIndex
            (by rw [mark_length now s hwf]; exact hwf.2)
            (exhFresh_mark_cursor now s hwf)
        have hB := fetch_ok_inv oracle now query pt f (markKeyAsExhausted now s) sf p hwf'
          (by
            intro hT
            rcases mark_cursor_cases now s hwf with hfalse | ⟨_, hentry⟩
            · rw [hfalse] at hT
              cases hT
            · rw [hentry]
              exact h403)
          hok
        exact ⟨hAcur.1, hB.1, hB.2⟩
      · rw [show fetchVideosFromYouTube oracle now query pt (f + 1) s =
            (.error (.upstream (some 403)), markKeyAsExhausted now s) by
          have horacle := h403
          simp only [List.getD_eq_getElem?_getD] at horacle
          simp [fetchVideosFromYouTube, h1, hg, horacle, h2]] at hok
        exact absurd hok (by simp)
    · have h1' : hasAvailableKeys s = false := by
        revert h1; cases hasAvailableKeys s <;> simp
      rw [show fetchVideosFromYouTube oracle now query pt (f + 1) s =
          (.error .allExhausted, s) by simp [fetchVideosFromYouTube, h1']] at hok
      exact absurd hok (by simp)

/-- C5 witness: pool `"a,b"`; `a` answers 403, `b` answers a page.  The call
returns `b`'s page, `a` ends exhausted, `b` does not. -/
theorem fetch_retry_success_witness :
    exhAt (markKeyAsExhausted 0 poolAB).keys poolAB.currentKeyIndex = true ∧
    exhAt (markKeyAsExhausted 0 poolAB).keys (markKeyAsExhausted 0 poolAB).currentKeyIndex
      = false ∧
    (fun k (_ : String) (_ : Option String) =>
        if k = "a" then Resp.err (some 403) else Resp.ok ⟨[]⟩)
      ((markKeyAsExhausted 0 poolAB).keys.getD
        (markKeyAsExhausted 0 poolAB).currentKeyIndex default).key "q" none = .ok ⟨[]⟩ :=
  fetch_retry_success
    (fun k _ _ => if k = "a" then Resp.err (some 403) else Resp.ok ⟨[]⟩)
    0 "q" none 2 poolAB (markKeyAsExhausted 0 poolAB) ⟨[]⟩
    ⟨by decide, by decide⟩ (by rfl) (by rfl)

/-! ### The retry depth bound when no key is stale -/

lemma NoStale_stamped (now : Nat) (s : APIKeyManager)
    (hns : NoStaleExhausted now s.keys) :
    NoStaleExhausted now (stampedKeys now s) := by
  intro k hk hq
  rcases List.mem_or_eq_of_mem_set hk with h | h
  · exact hns k h hq
  · subst h
    have := twentyFourHours_pos
    simp only [markedEntry]
    omega

/-- Under `NoStaleExhausted`, the sweep is a no-op, so the keys after
`markKeyAsExhausted` are exactly the stamped keys. -/
lemma mark_keys_noStale (now : Nat) (s : APIKeyManager) (hwf : WF s)
    (hns : NoStaleExhausted now s.keys) :
    (markKeyAsExhausted now s).keys = stampedKeys now s := by
  rw [markKeyAsExhausted_eq]
  obtain ⟨_, _, hpost⟩ := rotateToNextKey_post now _ (WF_stamped now s hwf)
  rcases hpost with ⟨hk, _⟩ | ⟨_, hk, _⟩
  · exact hk
  · rw [hk]
    exact resetExhaustedKeys_noop now _ (NoStale_stamped now s hns)

lemma availCount_set_marked (ks : List KeyEntry) (i : Nat) (e : KeyEntry)
    (he : e.quotaExhausted = true) (hi : i < ks.length) :
    availCount (ks.set i e) + (if (ks.getD i default).quotaExhausted = true then 0 else 1) =
      availCount ks := by
  induction ks generalizing i with
  | nil => simp at hi
  | cons a l ih =>
    cases i with
    | zero =>
      simp only [List.set, availCount, List.countP_cons, List.getD_cons_zero, he]
      rcases Bool.eq_false_or_eq_true a.quotaExhausted with hx | hx <;> simp [hx]
    | succ j =>
      simp only [List.length_cons, Nat.succ_lt_succ_iff] at hi
      have := ih j hi
      simp only [List.set, availCount, List.countP_cons, List.getD_cons_succ] at this ⊢
      omega

lemma availCount_stamped (now : Nat) (s : APIKeyManager) (hwf : WF s) :
    availCount (stampedKeys now s) +
      (if exhAt s.keys s.currentKeyIndex = true then 0 else 1) = availCount s.keys := by
  unfold stampedKeys exhAt
  exact availCount_set_marked s.keys s.currentKeyIndex (markedEntry now s) rfl hwf.2

lemma hasAvailable_iff_pos (s : APIKeyManager) :
    hasAvailableKeys s = true ↔ 0 < availCount s.keys := by
  rw [hasAvailableKeys_iff_exists]
  unfold availCount
  rw [List.countP_pos_iff]
  constructor
  · intro ⟨k, hk, hq⟩
    exact ⟨k, hk, by simp [hq]⟩
  · intro ⟨k, hk, hq⟩
    refine ⟨k, hk, ?_⟩
    revert hq; cases k.quotaExhausted <;> simp

/-- Under `NoStaleExhausted`, if keys remain available after a marking then
the new cursor rests on a non-exhausted key. -/
lemma mark_cursor_fresh_noStale (now : Nat) (s : APIKeyManager) (hwf : WF s)
    (hns : NoStaleExhausted now s.keys)
    (h2 : hasAvailableKeys (markKeyAsExhausted now s) = true) :
    exhAt (markKeyAsExhausted now s).keys (markKeyAsExhausted now s).currentKeyIndex = false := by
  have hkeys := mark_keys_noStale now s hwf hns
  have hm : hasAvailableKeys
      { keys := stampedKeys now s, currentKeyIndex := s.currentKeyIndex } = true := by
    unfold hasAvailableKeys at h2 ⊢
    rw [hkeys] at h2
    exact h2
  have := rotate_noReset now { keys := stampedKeys now s, currentKeyIndex := s.currentKeyIndex }
    (WF_stamped now s hwf) (NoStale_stamped now s hns) hm
  rw [markKeyAsExhausted_eq]
  rw [markKeyAsExhausted_eq] at hkeys
  rw [hkeys]
  exact this.2

/-- With no stale key at instant `now`, fuel `availCount + (1 if the cursor
key is exhausted)` suffices for the fetch recursion: each 403 retry marks
one more available key. -/
lemma fetch_noOOF (oracle : String → String → Option String → Resp)
    (now : Nat) (query : String) (pt : Option String) :
    ∀ fuel (s : APIKeyManager), WF s → NoStaleExhausted now s.keys →
      1 ≤ fuel →
      availCount s.keys + (if exhAt s.keys s.currentKeyIndex = true then 1 else 0) ≤ fuel →
      (fetchVideosFromYouTube oracle now query pt fuel s).1 ≠ .error .outOfFuel := by
  intro fuel
  induction fuel with
  | zero => intro s _ _ h1 _; omega
  | succ f ih =>
    intro s hwf hns _ hmeas
    by_cases h1 : hasAvailableKeys s = true
    · have hg := getCurrentKey_of_available s h1
      rcases horacle : oracle (s.keys.getD s.currentKeyIndex default).key query pt
        with page | status
      · rw [show fetchVideosFromYouTube oracle now query pt (f + 1) s = (.ok page, s) by
          simp only [List.getD_eq_getElem?_getD] at horacle
          simp [fetchVideosFromYouTube, h1, hg, horacle]]
        simp
      · by_cases h403 : status = some 403
        · subst h403
          by_cases h2 : hasAvailableKeys (markKeyAsExhausted now s) = true
          · rw [show fetchVideosFromYouTube oracle now query pt (f + 1) s =
                fetchVideosFromYouTube oracle now query pt f (markKeyAsExhausted now s) by
              simp only [List.getD_eq_getElem?_getD] at horacle
              simp [fetchVideosFromYouTube, h1, hg, horacle, h2]]
            have hwf' := markKeyAsExhausted_WF now s hwf
            have hns' : NoStaleExhausted now (markKeyAsExhausted now s).keys := by
              rw [mark_keys_noStale now s hwf hns]
              exact NoStale_stamped now s hns
            have hflag : exhAt (markKeyAsExhausted now s).keys
                (markKeyAsExhausted now s).currentKeyIndex = false :=
              mark_cursor_fresh_noStale now s hwf hns h2
            have hac := availCount_stamped now s hwf
            have havm : availCount (markKeyAsExhausted now s).keys
                = availCount (stampedKeys now s) := by
              rw [mark_keys_noStale now s hwf hns]
            have hpos : 0 < availCount (markKeyAsExhausted now s).keys :=
              (hasAvailable_iff_pos _).mp h2
            have hm' : availCount (markKeyAsExhausted now s).keys ≤ f := by
              rcases hx : exhAt s.keys s.currentKeyIndex with _ | _
              · simp only [hx, Bool.false_eq_true, if_false] at hmeas hac
                omega
              · simp only [hx, if_true] at hmeas hac
                omega
            refine ih (markKeyAsExhausted now s) hwf' hns' (by omega) ?_
            simp only [hflag, Bool.false_eq_true, if_false]
            omega
          · rw [show fetchVideosFromYouTube oracle now query pt (f + 1) s =
                (.error (.upstream (some 403)), markKeyAsExhausted now s) by
              simp only [List.getD_eq_getElem?_getD] at horacle
              simp [fetchVideosFromYouTube, h1, hg, horacle, h2]]
            simp
        · rw [show fetchVideosFromYouTube oracle now query pt (f + 1) s =
              (.error (.upstream status), s) by
            simp only [List.getD_eq_getElem?_getD] at horacle
            simp [fetchVideosFromYouTube, h1, hg, horacle, h403]]
          simp
    · have h1' : hasAvailableKeys s = false := by
        revert h1; cases hasAvailableKeys s <;> simp
      rw [show fetchVideosFromYouTube oracle now query pt (f + 1) s =
          (.error .allExhausted, s) by simp [fetchVideosFromYouTube, h1']]
      simp

/-- C2 counterexample: the retry depth of an all-403 call can exceed the
pool size.  From the pool built from `"a,b"`, one mark at time `0` yields a
reachable two-key state; calling the fetch at time `86400000` (24 hours
later) with every request answered 403 needs three attempts (fuel 2 — the
pool size — runs out, fuel 3 completes): the reset sweep revives `a`
mid-call while the cursor sticks on the freshly-marked `b`, so one attempt
re-marks `b` without exhausting a new credential. -/
theorem fetch_retry_depth_counterexample :
    (markKeyAsExhausted 0 poolAB).keys.length = 2 ∧
    (fetchVideosFromYouTube (fun _ _ _ => .err (some 403)) 86400000 "q" none 2
        (markKeyAsExhausted 0 poolAB)).1 = .error .outOfFuel ∧
    (fetchVideosFromYouTube (fun _ _ _ => .err (some 403)) 86400000 "q" none 3
        (markKeyAsExhausted 0 poolAB)).1 = .error (.upstream (some 403)) :=
  ⟨by rfl, by rfl, by rfl⟩

/-- C2 (amended): for every pool whose exhausted credentials were all
stamped within the last 24 hours (so the lazy reset sweep cannot revive
anything during the call), an all-forbidden `fetchVideosFromYouTube` call
recurses at most `N` times, `N` the number of credentials: fuel `N` never
runs out, because each failed attempt then marks one more available
credential before re-entering with the same arguments.  Without that
condition the sweep can revive keys mid-call and the depth can exceed `N`
(see the counterexample). -/
theorem fetch_retry_depth_bounded (oracle : String → String → Option String → Resp)
    (now : Nat) (query : String) (pt : Option String) (s : APIKeyManager)
    (hwf : WF s) (hns : NoStaleExhausted now s.keys) :
    (fetchVideosFromYouTube oracle now query pt s.keys.length s).1 ≠ .error .outOfFuel := by
  have hlen : 0 < s.keys.length := List.length_pos.mpr hwf.1
  apply fetch_noOOF oracle now query pt s.keys.length s hwf hns hlen
  have hle : availCount s.keys ≤ s.keys.length := List.countP_le_length _
  rcases hx : exhAt s.keys s.currentKeyIndex with _ | _
  · simp only [hx, Bool.false_eq_true, if_false]
    omega
  · simp only [hx, if_true]
    have hmem : s.keys.getD s.currentKeyIndex default ∈ s.keys := exhAt_mem s.keys _ hwf.2
    have hone : 0 < exhCount s.keys := by
      unfold exhCount
      rw [List.countP_pos_iff]
      exact ⟨_, hmem, hx⟩
    have hsplit : availCount s.keys + exhCount s.keys = s.keys.length := by
      unfold availCount exhCount
      induction s.keys with
      | nil => simp
      | cons a l ihl =>
        simp only [List.countP_cons, List.length_cons]
        rcases Bool.eq_false_or_eq_true a.quotaExhausted with hb | hb <;> simp [hb] <;> omega
    omega

/-- C2 (amended) witness: a fresh two-key pool, every request 403; fuel 2
(= pool size) suffices. -/
theorem fetch_retry_depth_bounded_witness :
    (fetchVideosFromYouTube (fun _ _ _ => .err (some 403)) 0 "q" none
        poolAB.keys.length poolAB).1 ≠ .error .outOfFuel :=
  fetch_retry_depth_bounded (fun _ _ _ => .err (some 403)) 0 "q" none poolAB
    ⟨by decide, by decide⟩ (by unfold NoStaleExhausted poolAB; decide)

/-! ### The persistence loop -/

lemma applyWrites_cons (i : YTItem) (rest : List YTItem) (db : List VideoData) :
    applyWrites (i :: rest) db = applyWrites rest (upsertByVideoId db (toVideoData i)) := rfl

/-- When no write fails, the save loop returns every mapped record in order
and the store accumulates all the upserts. -/
lemma save_ok (items : List YTItem) :
    ∀ db, saveVideosToDatabase (fun _ => none) db items =
      (.ok (items.map toVideoData), applyWrites items db) := by
  induction items with
  | nil => intro db; rfl
  | cons i rest ih =>
    intro db
    simp only [saveVideosToDatabase, applyWrites_cons, ih, List.map_cons]

/-- C6: when every write before some item succeeds and that item's write
throws, the save loop stops there: the error propagates, the store keeps
exactly the writes already committed (none is rolled back), and no item
after the failing one is ever written; `fetchAndSaveVideos` surfaces the
same error to its caller unchanged. -/
theorem save_aborts_on_failure (dbFail : VideoData → Option SvcErr)
    (db : List VideoData) (pre : List YTItem) (x : YTItem) (rest : List YTItem)
    (e : SvcErr)
    (hpre : ∀ i ∈ pre, dbFail (toVideoData i) = none)
    (hx : dbFail (toVideoData x) = some e) :
    saveVideosToDatabase dbFail db (pre ++ x :: rest) = (.error e, applyWrites pre db) ∧
    (∀ oracle now query fuel (s s' : APIKeyManager),
      fetchVideosFromYouTube oracle now query none fuel s = (.ok ⟨pre ++ x :: rest⟩, s') →
      fetchAndSaveVideos oracle dbFail now query fuel s db =
        (.error e, s', applyWrites pre db)) := by
  have hsave : ∀ db', saveVideosToDatabase dbFail db' (pre ++ x :: rest) =
      (.error e, applyWrites pre db') := by
    clear db
    induction pre with
    | nil =>
      intro db'
      simp only [List.nil_append, saveVideosToDatabase, hx, applyWrites]
      rfl
    | cons i pre' ih =>
      intro db'
      have hi : dbFail (toVideoData i) = none := hpre i (by simp)
      have hpre' : ∀ j ∈ pre', dbFail (toVideoData j) = none :=
        fun j hj => hpre j (by simp [hj])
      have := ih hpre'
      simp only [List.cons_append, saveVideosToDatabase, hi, applyWrites_cons]
      rw [show pre'.append (x :: rest) = pre' ++ x :: rest from rfl,
        this (upsertByVideoId db' (toVideoData i))]
  refine ⟨hsave db, ?_⟩
  intro oracle now query fuel s s' hfetch
  have hlen : 0 < (pre ++ x :: rest).length := by simp
  simp [fetchAndSaveVideos, hfetch, hsave db, hlen]

/-- C6 witness: two items, the first write throws; the second is never
written, the store stays empty, and the error reaches the cycle caller. -/
theorem save_aborts_on_failure_witness :
    saveVideosToDatabase (fun d => if d.videoId == "v1" then some (.db "boom") else none)
        [] ([] ++ item1 :: [item2]) = (.error (.db "boom"), applyWrites [] []) ∧
    fetchAndSaveVideos (fun _ _ _ => .ok ⟨[] ++ item1 :: [item2]⟩)
        (fun d => if d.videoId == "v1" then some (.db "boom") else none) 0 "q" 1 poolA [] =
      (.error (.db "boom"), poolA, applyWrites [] []) := by
  have h := save_aborts_on_failure
    (fun d => if d.videoId == "v1" then some (.db "boom") else none)
    [] [] item1 [item2] (.db "boom")
    (fun i hi => absurd hi (List.not_mem_nil i)) (by rfl)
  exact ⟨h.1, h.2 (fun _ _ _ => .ok ⟨[] ++ item1 :: [item2]⟩) 0 "q" 1 poolA poolA (by rfl)⟩

/-- C8: a cycle whose fetch returns zero items performs no storage write
and returns an empty result list, completing as a success. -/
theorem runCycle_zero_items_noop (oracle : String → String → Option String → Resp)
    (dbFail : VideoData → Option SvcErr) (now : Nat) (query : String) (fuel : Nat)
    (s s' : APIKeyManager) (db : List VideoData)
    (hfetch : fetchVideosFromYouTube oracle now query none fuel s = (.ok ⟨[]⟩, s')) :
    fetchAndSaveVideos oracle dbFail now query fuel s db = (.ok [], s', db) := by
  unfold fetchAndSaveVideos
  rw [hfetch]
  rfl

/-- C8 witness: an upstream page with zero items at a concrete pool. -/
theorem runCycle_zero_items_noop_witness :
    fetchAndSaveVideos (fun _ _ _ => .ok ⟨[]⟩) (fun _ => none) 0 "q" 1 poolA
        [⟨"v0", "t", "d", "p", "th", "c", "ci"⟩] =
      (.ok [], poolA, [⟨"v0", "t", "d", "p", "th", "c", "ci"⟩]) :=
  runCycle_zero_items_noop (fun _ _ _ => .ok ⟨[]⟩) (fun _ => none) 0 "q" 1 poolA poolA
    [⟨"v0", "t", "d", "p", "th", "c", "ci"⟩] (by rfl)

/-! ### Upsert semantics and idempotence -/

lemma countId_upsert_ne (db : List VideoData) (d : VideoData) (id : String)
    (h : (d.videoId == id) = false) :
    countId (upsertByVideoId db d) id = countId db id := by
  induction db with
  | nil => simp [upsertByVideoId, countId, h]
  | cons r rs ih =>
    by_cases hr : (r.videoId == d.videoId) = true
    · have hrid : (r.videoId == id) = false := by
        have h1 : r.videoId = d.videoId := by simpa using hr
        have h2 : ¬ d.videoId = id := by simpa using h
        simp [h1, h2]
      simp [upsertByVideoId, countId, List.countP_cons, hr, hrid, h]
    · have hr' : (r.videoId == d.videoId) = false := by
        revert hr; cases r.videoId == d.videoId <;> simp
      simp only [upsertByVideoId, hr', Bool.false_eq_true, if_false]
      simp only [countId, List.countP_cons] at ih ⊢
      omega

lemma countId_upsert_self (db : List VideoData) (d : VideoData) :
    countId (upsertByVideoId db d) d.videoId = max 1 (countId db d.videoId) := by
  induction db with
  | nil => simp [upsertByVideoId, countId]
  | cons r rs ih =>
    by_cases hr : (r.videoId == d.videoId) = true
    · simp [upsertByVideoId, countId, List.countP_cons, hr]
    · have hr' : (r.videoId == d.videoId) = false := by
        revert hr; cases r.videoId == d.videoId <;> simp
      simp only [upsertByVideoId, hr', Bool.false_eq_true, if_false]
      simp only [countId, List.countP_cons] at ih ⊢
      simp only [hr', Bool.false_eq_true, if_false, Nat.add_zero]
      rw [ih]

/-- Effect of the whole write loop on the per-id record count. -/
lemma countId_applyWrites (items : List YTItem) :
    ∀ (db : List VideoData) (id : String),
      countId (applyWrites items db) id =
        if items.any (fun i => i.id == id) then max 1 (countId db id) else countId db id := by
  induction items with
  | nil => intro db id; simp [applyWrites]
  | cons i rest ih =>
    intro db id
    rw [applyWrites_cons, ih]
    by_cases hid : (i.id == id) = true
    · have hdv : (toVideoData i).videoId = i.id := rfl
      have heq : i.id = id := by simpa using hid
      have h1 : countId (upsertByVideoId db (toVideoData i)) id
          = max 1 (countId db id) := by
        rw [← heq, ← hdv]
        exact countId_upsert_self db (toVideoData i)
      rw [h1]
      have hany : (i :: rest).any (fun j => j.id == id) = true := by simp [hid]
      rw [hany]
      by_cases hrest : rest.any (fun j => j.id == id) = true
      · simp [hrest, Nat.max_comm]
      · have : rest.any (fun j => j.id == id) = false := by
          revert hrest; cases rest.any (fun j => j.id == id) <;> simp
        simp [this]
    · have hid' : (i.id == id) = false := by
        revert hid; cases i.id == id <;> simp
      have h1 : countId (upsertByVideoId db (toVideoData i)) id = countId db id :=
        countId_upsert_ne db (toVideoData i) id hid'
      rw [h1]
      have : (i :: rest).any (fun j => j.id == id) = rest.any (fun j => j.id == id) := by
        simp [hid']
      rw [this]

/-- C9: running the save loop twice over the same item list starting from an
empty store leaves exactly one stored record per distinct external video id
— each write is an upsert keyed on `videoId`, so the second run updates the
records of the first and adds nothing. -/
theorem save_idempotent_per_videoId (items : List YTItem) (id : String) :
    saveVideosToDatabase (fun _ => none) [] items =
      (.ok (items.map toVideoData), applyWrites items []) ∧
    saveVideosToDatabase (fun _ => none) (applyWrites items []) items =
      (.ok (items.map toVideoData), applyWrites items (applyWrites items [])) ∧
    countId (applyWrites items []) id =
      (if items.any (fun i => i.id == id) then 1 else 0) ∧
    countId (applyWrites items (applyWrites items [])) id =
      countId (applyWrites items []) id := by
  have h1 := countId_applyWrites items [] id
  have h2 := countId_applyWrites items (applyWrites items []) id
  refine ⟨save_ok items [], save_ok items (applyWrites items []), ?_, ?_⟩
  · rw [h1]
    simp [countId]
  · rw [h2, h1]
    by_cases hany : items.any (fun i => i.id == id) = true
    · simp [hany, countId]
    · have : items.any (fun i => i.id == id) = false := by
        revert hany; cases items.any (fun i => i.id == id) <;> simp
      simp [this]

/-! ### Exhaustion threshold under repeated marking -/

lemma marksAt_cons (t : Nat) (rest : List Nat) (s : APIKeyManager) :
    marksAt (t :: rest) s = marksAt rest (markKeyAsExhausted t s) := rfl

lemma exhCount_set_marked (ks : List KeyEntry) (i : Nat) (e : KeyEntry)
    (he : e.quotaExhausted = true) (hi : i < ks.length) :
    exhCount (ks.set i e) + (if (ks.getD i default).quotaExhausted = true then 1 else 0) =
      exhCount ks + 1 := by
  induction ks generalizing i with
  | nil => simp at hi
  | cons a l ih =>
    cases i with
    | zero =>
      simp only [List.set, exhCount, List.countP_cons, List.getD_cons_zero, he]
      rcases Bool.eq_false_or_eq_true a.quotaExhausted with hx | hx <;> simp [hx]
    | succ j =>
      simp only [List.length_cons, Nat.succ_lt_succ_iff] at hi
      have := ih j hi
      simp only [List.set, exhCount, List.countP_cons, List.getD_cons_succ] at this ⊢
      omega

lemma exhCount_stamped (now : Nat) (s : APIKeyManager) (hwf : WF s) :
    exhCount (stampedKeys now s) +
      (if exhAt s.keys s.currentKeyIndex = true then 1 else 0) = exhCount s.keys + 1 := by
  unfold stampedKeys exhAt
  exact exhCount_set_marked s.keys s.currentKeyIndex (markedEntry now s) rfl hwf.2

lemma exhAt_of_count_full (ks : List KeyEntry) (i : Nat) (hi : i < ks.length)
    (h : exhCount ks = ks.length) :
    exhAt ks i = true := by
  have := List.countP_eq_length.mp h
  exact this _ (exhAt_mem ks i hi)

/-- Invariant of a sequence of `markKeyAsExhausted` calls whose times all
lie within one reset window of each other: the pool keeps its size, each
call before full exhaustion marks a fresh key (so the exhausted count is
`min (initial + number of calls) size`), and while not fully exhausted the
cursor rests on a non-exhausted key. -/
lemma marksAt_invariant :
    ∀ (ts : List Nat) (s : APIKeyManager),
      WF s →
      (∀ k ∈ s.keys, k.quotaExhausted = true → ∀ t ∈ ts, t - k.lastUsed < twentyFourHours) →
      (∀ t ∈ ts, ∀ u ∈ ts, t - u < twentyFourHours) →
      (exhCount s.keys < s.keys.length → exhAt s.keys s.currentKeyIndex = false) →
      (marksAt ts s).keys.length = s.keys.length ∧
      WF (marksAt ts s) ∧
      exhCount (marksAt ts s).keys = min (exhCount s.keys + ts.length) s.keys.length ∧
      (exhCount (marksAt ts s).keys < s.keys.length →
        exhAt (marksAt ts s).keys (marksAt ts s).currentKeyIndex = false) := by
  intro ts
  induction ts with
  | nil =>
    intro s hwf _ _ hcur
    have hle : exhCount s.keys ≤ s.keys.length := List.countP_le_length _
    refine ⟨rfl, hwf, ?_, hcur⟩
    simp only [marksAt, List.foldl_nil, List.length_nil, Nat.add_zero]
    omega
  | cons t rest ih =>
    intro s hwf h1 h3 h4
    rw [marksAt_cons]
    have htmem : t ∈ t :: rest := by simp
    have hns : NoStaleExhausted t s.keys := fun k hk hq => h1 k hk hq t htmem
    have hkeys : (markKeyAsExhausted t s).keys = stampedKeys t s :=
      mark_keys_noStale t s hwf hns
    have hwf' : WF (markKeyAsExhausted t s) := markKeyAsExhausted_WF t s hwf
    have hlen' : (markKeyAsExhausted t s).keys.length = s.keys.length :=
      mark_length t s hwf
    have hstc := exhCount_stamped t s hwf
    have hle : exhCount s.keys ≤ s.keys.length := List.countP_le_length _
    -- the new exhausted count after this one call
    have hcount' : exhCount (markKeyAsExhausted t s).keys =
        min (exhCount s.keys + 1) s.keys.length := by
      rw [hkeys]
      rcases Nat.lt_or_ge (exhCount s.keys) s.keys.length with hlt | hge
      · have hfalse := h4 hlt
        rw [hfalse] at hstc
        simp only [Bool.false_eq_true, if_false, Nat.add_zero] at hstc
        omega
      · have hfull : exhCount s.keys = s.keys.length := by omega
        have htrue : exhAt s.keys s.currentKeyIndex = true :=
          exhAt_of_count_full s.keys s.currentKeyIndex hwf.2 hfull
        rw [htrue] at hstc
        simp only [if_true] at hstc
        omega
    -- hypotheses of the induction for the marked pool
    have h1' : ∀ k ∈ (markKeyAsExhausted t s).keys, k.quotaExhausted = true →
        ∀ u ∈ rest, u - k.lastUsed < twentyFourHours := by
      intro k hk hq u hu
      rw [hkeys] at hk
      rcases List.mem_or_eq_of_mem_set hk with h | h
      · exact h1 k h hq u (by simp [hu])
      · subst h
        have : (markedEntry t s).lastUsed = t := rfl
        rw [this]
        exact h3 u (by simp [hu]) t htmem
    have h3' : ∀ u ∈ rest, ∀ v ∈ rest, u - v < twentyFourHours :=
      fun u hu v hv => h3 u (by simp [hu]) v (by simp [hv])
    have h4' : exhCount (markKeyAsExhausted t s).keys < (markKeyAsExhausted t s).keys.length →
        exhAt (markKeyAsExhausted t s).keys (markKeyAsExhausted t s).currentKeyIndex = false := by
      intro hlt
      have hav : hasAvailableKeys (markKeyAsExhausted t s) = true :=
        (hasAvailableKeys_iff_count _).mpr hlt
      exact mark_cursor_fresh_noStale t s hwf hns hav
    obtain ⟨ha, hb, hc, hd⟩ := ih (markKeyAsExhausted t s) hwf' h1' h3' h4'
    refine ⟨by rw [ha, hlen'], hb, ?_, ?_⟩
    · rw [hc, hcount', hlen']
      simp only [List.length_cons]
      omega
    · intro hlt
      exact hd (by rw [hlen']; exact hlt)

/-- What `constructKM` produces on a successful parse. -/
lemma constructKM_ok (raw : String) (s : APIKeyManager)
    (h : constructKM (some raw) = .ok s) :
    s.keys = (parseKeys raw).map (fun k => { key := k, quotaExhausted := false, lastUsed := 0 }) ∧
    s.currentKeyIndex = 0 := by
  simp only [constructKM] at h
  by_cases h1 : String.mk (trimChars raw.data) = ""
  · rw [if_pos h1] at h; cases h
  · rw [if_neg h1] at h
    by_cases h2 : parseKeys raw = []
    · rw [if_pos h2] at h; cases h
    · rw [if_neg h2] at h
      cases h
      exact ⟨rfl, rfl⟩

/-- C4: for every successfully constructed pool of N credentials and every
sequence of `markKeyAsExhausted` calls whose times all lie within one
24-hour reset window of each other (so no lazy reset intervenes),
`hasAvailableKeys` stays true while fewer than N calls have occurred and is
false from the N-th call on; in the fully-exhausted state a subsequent
`getCurrentKey` call fails with the no-available-keys error. -/
theorem pool_exhaustion_threshold (cfg : String) (s0 : APIKeyManager) (ts : List Nat)
    (hc : constructKM (some cfg) = .ok s0)
    (hwin : ∀ t ∈ ts, ∀ u ∈ ts, t - u < twentyFourHours) :
    (ts.length < s0.keys.length → hasAvailableKeys (marksAt ts s0) = true) ∧
    (s0.keys.length ≤ ts.length →
      hasAvailableKeys (marksAt ts s0) = false ∧
      getCurrentKey (marksAt ts s0) = .error .noAvailableKeys) := by
  obtain ⟨hkeys, hcur⟩ := constructKM_ok cfg s0 hc
  have hwf : WF s0 := reachable_WF s0 (Reachable.constructed (some cfg) s0 hc)
  have hfreshmem : ∀ k ∈ s0.keys, k.quotaExhausted = false := by
    intro k hk
    rw [hkeys] at hk
    obtain ⟨x, _, hx⟩ := List.mem_map.mp hk
    rw [← hx]
  have hcount0 : exhCount s0.keys = 0 := by
    unfold exhCount
    rw [List.countP_eq_zero]
    intro k hk
    simp [hfreshmem k hk]
  have h1 : ∀ k ∈ s0.keys, k.quotaExhausted = true →
      ∀ t ∈ ts, t - k.lastUsed < twentyFourHours := by
    intro k hk hq
    rw [hfreshmem k hk] at hq
    cases hq
  have h4 : exhCount s0.keys < s0.keys.length → exhAt s0.keys s0.currentKeyIndex = false := by
    intro _
    exact hfreshmem _ (exhAt_mem s0.keys s0.currentKeyIndex hwf.2)
  obtain ⟨ha, hb, hcount, hd⟩ := marksAt_invariant ts s0 hwf h1 hwin h4
  rw [hcount0, Nat.zero_add] at hcount
  constructor
  · intro hlt
    rw [hasAvailableKeys_iff_count, ha, hcount]
    omega
  · intro hge
    have hfull : exhCount (marksAt ts s0).keys = s0.keys.length := by
      rw [hcount]; omega
    have hfalse : hasAvailableKeys (marksAt ts s0) = false := by
      rcases Bool.eq_false_or_eq_true (hasAvailableKeys (marksAt ts s0)) with h | h
      · have := (hasAvailableKeys_iff_count _).mp h
        rw [ha] at this
        omega
      · exact h
    exact ⟨hfalse, by simp [getCurrentKey, hfalse]⟩

/-- C4 witness: the two-key pool `"a,b"`; one mark keeps a key available,
two marks within the window exhaust the pool and `getCurrentKey` fails. -/
theorem pool_exhaustion_threshold_witness :
    hasAvailableKeys (marksAt [0] poolAB) = true ∧
    hasAvailableKeys (marksAt [0, 1] poolAB) = false ∧
    getCurrentKey (marksAt [0, 1] poolAB) = .error .noAvailableKeys :=
  ⟨(pool_exhaustion_threshold "a,b" poolAB [0] (by rfl)
      (by intro t ht u hu; fin_cases ht; fin_cases hu; decide)).1 (by decide),
   ((pool_exhaustion_threshold "a,b" poolAB [0, 1] (by rfl)
      (by intro t ht u hu; fin_cases ht <;> fin_cases hu <;> decide)).2 (by decide)).1,
   ((pool_exhaustion_threshold "a,b" poolAB [0, 1] (by rfl)
      (by intro t ht u hu; fin_cases ht <;> fin_cases hu <;> decide)).2 (by decide)).2⟩
